import Mathlib

/-!
Shallow embedding of the Serial-Studio framing/decoding engine
(`serialparser.py`): the type catalog (`DataType`, `Endianness`), the frame
scheme configuration (`setParserScheme`), the stream decoder loop
(`SerialParser.parse`) and the rate tracker, together with theorems checking
the natural-language specification against this embedding.

Modelling conventions:
* Python byte strings / bytearrays are `List Nat`; machine integers are `Int`
  with explicit two's-complement reduction where the wire format demands it.
* Python `float` arithmetic in the rate tracker is modelled exactly over `ℚ`
  (the smoothing constants 0.3 / 0.7 become the rationals 3/10 and 7/10).
* `struct.unpack` for the IEEE-754 format characters 'f' and 'd' is modelled
  by the raw 32/64-bit payload pattern of the chunk (the interchange
  encoding is a bijection between byte chunks and these patterns), so every
  decoded value lives in `Int`.
* Wall-clock time (`time.perf_counter()`) is an explicit `ℚ` parameter.
* A Python run that raises an exception, or a loop that never terminates, is
  modelled by an `Option` result of `none`; the fuel given to the decoding
  loop is the buffer length, which the termination theorem shows sufficient
  whenever the frame size is positive.
-/

namespace SerialStudio

/-- Python list indexing `l[i]` for a possibly negative `i`:
`l[i]` for `0 ≤ i < len l`, `l[len l + i]` for `-len l ≤ i < 0`,
and an `IndexError` (here `none`) otherwise. -/
def pyIndex {α : Type} (l : List α) (i : Int) : Option α :=
  if 0 ≤ i then l[i.toNat]?
  else if (-i).toNat ≤ l.length then l[l.length - (-i).toNat]?
  else none

/-- `Endianness.LITTLE` -/
def Endianness.LITTLE : Int := 0
/-- `Endianness.BIG` -/
def Endianness.BIG : Int := 1

/-- `Endianness.getParserChar`: indexes `['<', '>']`. -/
def Endianness.getParserChar (aEndianness : Int) : Option Char :=
  pyIndex ['<', '>'] aEndianness

/-- The `DataType` tags. -/
def DataType.INT8 : Int := 0
def DataType.UINT8 : Int := 1
def DataType.INT16 : Int := 2
def DataType.UINT16 : Int := 3
def DataType.INT32 : Int := 4
def DataType.UINT32 : Int := 5
def DataType.INT64 : Int := 6
def DataType.UINT64 : Int := 7
def DataType.FLOAT : Int := 8
def DataType.DOUBLE : Int := 9

/-- `DataType.getSize`: indexes `[1, 1, 2, 2, 4, 4, 8, 8, 4, 8]`. -/
def DataType.getSize (aDataType : Int) : Option Nat :=
  pyIndex [1, 1, 2, 2, 4, 4, 8, 8, 4, 8] aDataType

/-- `DataType.getParserChar`: indexes the `struct` format characters. -/
def DataType.getParserChar (aDataType : Int) : Option Char :=
  pyIndex ['b', 'B', 'h', 'H', 'l', 'L', 'q', 'Q', 'f', 'd'] aDataType

/-- Byte width of a `struct` format character used by this program. -/
def charWidth (c : Char) : Option Nat :=
  if c = 'b' ∨ c = 'B' then some 1
  else if c = 'h' ∨ c = 'H' then some 2
  else if c = 'l' ∨ c = 'L' ∨ c = 'f' then some 4
  else if c = 'q' ∨ c = 'Q' ∨ c = 'd' then some 8
  else none

/-- Whether a `struct` format character decodes as a signed integer
('f' and 'd' decode as IEEE-754 payloads, modelled by their raw bit
patterns, hence unsigned here). -/
def charSigned (c : Char) : Bool :=
  c = 'b' ∨ c = 'h' ∨ c = 'l' ∨ c = 'q'

/-- Little-endian value of a byte list. -/
def natOfBytesLE (bytes : List Nat) : Nat :=
  bytes.foldr (fun b acc => b + 256 * acc) 0

/-- Decode one fixed-width chunk the way `struct.unpack` does: assemble the
bytes in the configured order, then apply two's complement when the format
character is signed. -/
def decodeChunk (signed : Bool) (big : Bool) (chunk : List Nat) : Int :=
  let n := natOfBytesLE (if big then chunk.reverse else chunk)
  if signed ∧ 2 ^ (8 * chunk.length - 1) ≤ n then
    (n : Int) - 2 ^ (8 * chunk.length)
  else (n : Int)

/-- `struct.unpack` over the body of a format string (endianness already
stripped): the data length must equal the total width or the call raises. -/
def unpackVals (big : Bool) : List Char → List Nat → Option (List Int)
  | [], [] => some []
  | [], _ :: _ => none
  | c :: cs, data =>
    match charWidth c with
    | none => none
    | some w =>
      if data.length < w then none
      else
        match unpackVals big cs (data.drop w) with
        | none => none
        | some vs => some (decodeChunk (charSigned c) big (data.take w) :: vs)

/-- `struct.unpack(fmt, data)` for the format strings this program builds:
an endianness character followed by repeated type characters. -/
def structUnpack (fmt : List Char) (data : List Nat) : Option (List Int) :=
  match fmt with
  | '<' :: rest => unpackVals false rest data
  | '>' :: rest => unpackVals true rest data
  | _ => none

/-- The mutable state of a `SerialParser` object: the pending byte buffer,
the raw scheme fields, the derived scheme fields, and the rate-tracker
counters and rates. -/
structure ParserState where
  buffer : List Nat
  dataType : Int
  numChannels : Nat
  startSequence : List Nat
  endSequence : List Nat
  endianness : Int
  payloadSize : Nat
  headerSize : Nat
  packetSize : Nat
  parserString : List Char
  packetRate : ℚ
  packetCount : ℚ
  startTime : ℚ
  parserErrCount : ℚ
  parserErrRate : ℚ
  deriving Repr, DecidableEq

/-- `SerialParser.setParserScheme`: the raw fields are assigned first; the
derived fields follow, each of which can raise an `IndexError` out of a
lookup table (`none` paired with the state as mutated so far). The returned
`Bool` records whether an exception escaped. -/
def setParserScheme (st : ParserState) (aStartSequence : List Nat)
    (aDataType : Int) (aNumChannel : Nat) (aEndianness : Int)
    (aEndSequence : List Nat) : Bool × ParserState :=
  let st1 := { st with
    dataType := aDataType
    numChannels := aNumChannel
    startSequence := aStartSequence
    endSequence := aEndSequence
    endianness := aEndianness }
  match DataType.getSize aDataType with
  | none => (true, st1)
  | some sz =>
    let st2 := { st1 with
      payloadSize := aNumChannel * sz
      headerSize := aStartSequence.length }
    let st3 := { st2 with
      packetSize := st2.headerSize + st2.payloadSize + aEndSequence.length }
    match Endianness.getParserChar aEndianness with
    | none => (true, st3)
    | some ec =>
      if aNumChannel = 0 then (false, { st3 with parserString := [ec] })
      else
        match DataType.getParserChar aDataType with
        | none => (true, { st3 with parserString := [ec] })
        | some dc =>
          (false, { st3 with parserString := ec :: List.replicate aNumChannel dc })

/-- `SerialParser.getPacketRate` -/
def getPacketRate (st : ParserState) : ℚ := st.packetRate

/-- `SerialParser.getErrorRate`: Python floor division
`self.parserErrRate // self.packetSize`; division by a zero packet size
raises (`none`). -/
def getErrorRate (st : ParserState) : Option ℚ :=
  if st.packetSize = 0 then none
  else some ((⌊st.parserErrRate / (st.packetSize : ℚ)⌋ : Int) : ℚ)

/-- Does the buffer start with the scheme's start marker?  This is the
`for i, val in enumerate(self.startSequence)` comparison loop. -/
def startMatch (st : ParserState) (buf : List Nat) : Bool :=
  buf.take st.startSequence.length == st.startSequence

/-- Does the end marker match at offset `headerSize + payloadSize`?  This is
the `for i, val in enumerate(self.endSequence)` comparison loop. -/
def endMatch (st : ParserState) (buf : List Nat) : Bool :=
  (buf.drop (st.headerSize + st.payloadSize)).take st.endSequence.length
    == st.endSequence

/-- The `while len(self.buffer) >= self.packetSize` loop of
`SerialParser.parse`, lines 93-125: on a marker mismatch pop the first byte
and count an error; on a match, unpack the payload span, append the frame
and drop `packetSize` bytes.  `fuel` bounds the number of iterations
(`none` when it runs out, modelling a non-terminating loop); an unpack
exception is also `none`. -/
def parseLoop (st : ParserState) (fuel : Nat) (buf : List Nat) (errCount : ℚ)
    (acc : List (List Int)) : Option (List (List Int) × List Nat × ℚ) :=
  if st.packetSize ≤ buf.length then
    match fuel with
    | 0 => none
    | fuel + 1 =>
      if ¬ startMatch st buf then
        parseLoop st fuel buf.tail (errCount + 1) acc
      else if ¬ endMatch st buf then
        parseLoop st fuel buf.tail (errCount + 1) acc
      else
        match structUnpack st.parserString
            ((buf.drop st.headerSize).take st.payloadSize) with
        | none => none
        | some vals => parseLoop st fuel (buf.drop st.packetSize) errCount (acc ++ [vals])
  else some (acc, buf, errCount)

/-- The rate-tracker block of `SerialParser.parse`, lines 127-140: add this
call's frame count to `packetCount`; on the first-ever call (`startTime`
still its 0 sentinel) only record the window start; afterwards, once more
than one second has elapsed, fold the measured rates into the smoothed
`packetRate` / `parserErrRate` with weights 3/10 and 7/10 and reset the
window. -/
def updateRates (st : ParserState) (numParsed : Nat) (curTime : ℚ) : ParserState :=
  let st' := { st with packetCount := st.packetCount + numParsed }
  if st'.startTime = 0 then { st' with startTime := curTime }
  else
    let timeDelta := curTime - st'.startTime
    if 1 < timeDelta then
      { st' with
        packetRate := st'.packetRate * (3 / 10) + (st'.packetCount / timeDelta) * (7 / 10)
        packetCount := 0
        parserErrRate := st'.parserErrRate * (3 / 10) + (st'.parserErrCount / timeDelta) * (7 / 10)
        parserErrCount := 0
        startTime := curTime }
    else st'

/-- `list(map(list, zip(*parsedPackets)))`: with no rows the result is
empty; otherwise column `c` (for `c` below the least row length) collects
entry `c` of every row. -/
def zipStar (pp : List (List Int)) : List (List Int) :=
  match pp with
  | [] => []
  | r :: rest =>
    let n := rest.foldl (fun m row => min m row.length) r.length
    (List.range n).map (fun c => pp.map (fun row => row.getD c 0))

/-- `SerialParser.parse`: extend the buffer with the new data, run the
extraction loop (fuel = buffer length, shown sufficient whenever
`packetSize ≥ 1`), advance the rate tracker at the current time, and return
the channel-major transpose of the decoded batch together with the new
state. -/
def parse (st : ParserState) (data : List Nat) (curTime : ℚ) :
    Option (List (List Int) × ParserState) :=
  let buf := st.buffer ++ data
  match parseLoop st buf.length buf st.parserErrCount [] with
  | none => none
  | some (parsedPackets, buf', errCount) =>
    let st1 := { st with buffer := buf', parserErrCount := errCount }
    let st2 := updateRates st1 parsedPackets.length curTime
    some (zipStar parsedPackets, st2)

/-- `SerialParser.__init__` with all rate fields zeroed, followed by
`setParserScheme`; the `Bool` again records a raised exception.  The
pre-scheme field values are arbitrary zeros (Python would leave them
unbound; no claim reads them when construction fails before they are set). -/
def mkParser (aStartSequence : List Nat) (aDataType : Int) (aNumChannel : Nat)
    (aEndianness : Int) (aEndSequence : List Nat) : Bool × ParserState :=
  setParserScheme
    { buffer := [], dataType := 0, numChannels := 0, startSequence := [],
      endSequence := [], endianness := 0, payloadSize := 0, headerSize := 0,
      packetSize := 0, parserString := [], packetRate := 0, packetCount := 0,
      startTime := 0, parserErrCount := 0, parserErrRate := 0 }
    aStartSequence aDataType aNumChannel aEndianness aEndSequence

/-- The `w` little-endian bytes of `n` (the layout `struct.pack` emits for
an unsigned value). -/
def bytesOfNatLE : Nat → Nat → List Nat
  | 0, _ => []
  | w + 1, n => (n % 256) :: bytesOfNatLE w (n / 256)

/-- `struct.pack` of one fixed-width value: the two's-complement byte image
of `v` in width `w`, most significant byte last (little-endian) or first
(big-endian). -/
def packChunk (big : Bool) (w : Nat) (v : Int) : List Nat :=
  let bytes := bytesOfNatLE w (v % (2 ^ (8 * w))).toNat
  if big then bytes.reverse else bytes

/-- The wire image of one frame under a scheme: start marker, then each
channel value packed at width `w` in byte order `big`, then end marker
(spec §6, and the layout `send.py` produces with `struct.pack`). -/
def encodeFrame (st : ParserState) (big : Bool) (w : Nat) (vals : List Int) : List Nat :=
  st.startSequence ++ (vals.map (packChunk big w)).flatten ++ st.endSequence

/-- The representable range of a `struct` format character: the signed or
unsigned `w`-byte integers (IEEE payloads counted by their bit patterns). -/
def charInRange (c : Char) (v : Int) : Prop :=
  match charWidth c with
  | none => False
  | some w =>
    if charSigned c then -(2 ^ (8 * w - 1)) ≤ v ∧ v < 2 ^ (8 * w - 1)
    else 0 ≤ v ∧ v < 2 ^ (8 * w)

/-- The derived scheme fields are the ones `setParserScheme` computes from
the raw fields: this is exactly the shape of every state a successful
`setParserScheme` call leaves behind. -/
def ValidScheme (st : ParserState) : Prop :=
  ∃ ec dc w,
    Endianness.getParserChar st.endianness = some ec ∧
    DataType.getParserChar st.dataType = some dc ∧
    charWidth dc = some w ∧
    st.parserString = ec :: List.replicate st.numChannels dc ∧
    st.payloadSize = st.numChannels * w ∧
    st.headerSize = st.startSequence.length ∧
    st.packetSize = st.headerSize + st.payloadSize + st.endSequence.length

/-- The reference scheme of spec §8: start marker `0xAA 0xBB`, three INT32
channels, little-endian, no end marker (frame size 14). -/
def refParser : ParserState := (mkParser [0xAA, 0xBB] 4 3 0 []).2

/-- Wire bytes of the spec §8 transpose example: the frames `(-1, 1, 100)`
and `(2, -2, 200)` encoded back-to-back under the reference scheme. -/
def c2Data : List Nat := [170, 187, 255, 255, 255, 255, 1, 0, 0, 0, 100, 0, 0, 0,
  170, 187, 2, 0, 0, 0, 254, 255, 255, 255, 200, 0, 0, 0]

/-- A tracker state with a prior window start (`windowStart = 1`) and a
previous smoothed packet rate of 5, for the spec §8 rate-smoothing example. -/
def refTracker : ParserState := { refParser with startTime := 1, packetRate := 5 }

instance instDecidableCharInRange (c : Char) (v : Int) :
    Decidable (charInRange c v) :=
  match h : charWidth c with
  | none => .isFalse (by simp [charInRange, h])
  | some w =>
    decidable_of_iff
      (if charSigned c then -(2 ^ (8 * w - 1)) ≤ v ∧ v < 2 ^ (8 * w - 1)
       else 0 ≤ v ∧ v < 2 ^ (8 * w))
      (by simp [charInRange, h])

lemma bytesOfNatLE_length (w n : Nat) : (bytesOfNatLE w n).length = w := by
  induction w generalizing n with
  | zero => rfl
  | succ w ih => simp [bytesOfNatLE, ih]

lemma natOfBytesLE_bytesOfNatLE (w n : Nat) (h : n < 2 ^ (8 * w)) :
    natOfBytesLE (bytesOfNatLE w n) = n := by
  induction w generalizing n with
  | zero =>
    simp [bytesOfNatLE, natOfBytesLE]
    omega
  | succ w ih =>
    have hdiv : n / 256 < 2 ^ (8 * w) := by
      rw [Nat.div_lt_iff_lt_mul (by norm_num)]
      calc n < 2 ^ (8 * (w + 1)) := h
        _ = 2 ^ (8 * w) * 256 := by ring
    simp only [bytesOfNatLE, natOfBytesLE, List.foldr_cons]
    have := ih (n / 256) hdiv
    simp only [natOfBytesLE] at this
    rw [this]
    omega

lemma packChunk_length (big : Bool) (w : Nat) (v : Int) :
    (packChunk big w v).length = w := by
  unfold packChunk
  cases big <;> simp [bytesOfNatLE_length]

lemma charWidth_pos {c : Char} {w : Nat} (h : charWidth c = some w) : 1 ≤ w := by
  unfold charWidth at h
  split_ifs at h <;> simp only [Option.some.injEq] at h <;> omega

lemma decodeChunk_packChunk (signed big : Bool) (w : Nat) (v : Int)
    (hw : 1 ≤ w)
    (hr : if signed then -(2 ^ (8 * w - 1)) ≤ v ∧ v < 2 ^ (8 * w - 1)
          else 0 ≤ v ∧ v < 2 ^ (8 * w)) :
    decodeChunk signed big (packChunk big w v) = v := by
  have hcastw : ((2 ^ (8 * w) : Nat) : Int) = 2 ^ (8 * w) := by push_cast; ring
  have hcastw1 : ((2 ^ (8 * w - 1) : Nat) : Int) = 2 ^ (8 * w - 1) := by
    push_cast; ring
  have hpow2 : (2 : Int) ^ (8 * w) = 2 ^ (8 * w - 1) * 2 := by
    rw [← pow_succ]
    congr 1
    omega
  have hone : (1 : Nat) ≤ 2 ^ (8 * w - 1) := Nat.one_le_two_pow
  have hm0 : (0 : Int) ≤ v % (2 ^ (8 * w)) := Int.emod_nonneg v (by positivity)
  have hmlt : v % (2 ^ (8 * w)) < 2 ^ (8 * w) :=
    Int.emod_lt_of_pos v (by positivity)
  have hb : -(2 ^ (8 * w)) < v ∧ v < 2 ^ (8 * w) := by
    split_ifs at hr <;> constructor <;> omega
  have hmv : v % (2 ^ (8 * w)) = if 0 ≤ v then v else v + 2 ^ (8 * w) := by
    split_ifs with h0
    · exact Int.emod_eq_of_lt h0 hb.2
    · have hshift := Int.add_mul_emod_self_left v (2 ^ (8 * w)) 1
      rw [mul_one] at hshift
      rw [← hshift]
      exact Int.emod_eq_of_lt (by omega) (by omega)
  have hnm : (v % (2 ^ (8 * w))).toNat < 2 ^ (8 * w) := by omega
  have hnat : natOfBytesLE (bytesOfNatLE w (v % (2 ^ (8 * w))).toNat) =
      (v % (2 ^ (8 * w))).toNat := natOfBytesLE_bytesOfNatLE w _ hnm
  unfold decodeChunk packChunk
  rcases big with _ | _ <;> rcases signed with _ | _ <;>
      simp only [Bool.false_eq_true, if_true, if_false, ite_true, ite_false,
        List.reverse_reverse, List.length_reverse, bytesOfNatLE_length, hnat,
        false_and, true_and] <;>
      simp only [Bool.false_eq_true, if_true, if_false, ite_true, ite_false] at hr <;>
    [skip; skip; skip; skip] <;>
    first
    | -- unsigned: the remainder is the value itself
      · have hid : v % (2 ^ (8 * w)) = v := Int.emod_eq_of_lt hr.1 hr.2
        omega
    | -- signed: split on the sign and on the decoded branch
      · by_cases h0 : 0 ≤ v <;> simp only [h0, ite_true, ite_false] at hmv <;>
          split_ifs <;> omega

lemma unpackVals_length (big : Bool) (cs : List Char) (data : List Nat)
    (vs : List Int) (h : unpackVals big cs data = some vs) :
    vs.length = cs.length := by
  induction cs generalizing data vs with
  | nil =>
    cases data <;> simp [unpackVals] at h
    simp [← h]
  | cons c cs ih =>
    rcases hw : charWidth c with _ | w
    · simp [unpackVals, hw] at h
    · simp only [unpackVals, hw] at h
      split_ifs at h with hlt
      rcases hrec : unpackVals big cs (data.drop w) with _ | vs'
      · simp [hrec] at h
      · simp only [hrec, Option.some.injEq] at h
        subst h
        simp [ih _ _ hrec]

lemma unpackVals_pack (big : Bool) (dc : Char) (w : Nat)
    (hcw : charWidth dc = some w) (vals : List Int)
    (hv : ∀ v ∈ vals, charInRange dc v) :
    unpackVals big (List.replicate vals.length dc)
      ((vals.map (packChunk big w)).flatten) = some vals := by
  induction vals with
  | nil => simp [unpackVals]
  | cons v vs ih =>
    have hvr := hv v (List.mem_cons_self v vs)
    rw [charInRange, hcw] at hvr
    have hlen : (packChunk big w v).length = w := packChunk_length big w v
    simp only [List.length_cons, List.replicate_succ, List.map_cons,
      List.flatten_cons, unpackVals, hcw]
    rw [if_neg (by simp [hlen])]
    rw [List.drop_append_of_le_length (by omega), List.drop_eq_nil_of_le (by omega)]
    simp only [List.nil_append]
    rw [ih (fun x hx => hv x (List.mem_cons_of_mem v hx))]
    rw [List.take_append_of_le_length (by omega), List.take_of_length_le (by omega)]
    rw [decodeChunk_packChunk (charSigned dc) big w v (charWidth_pos hcw) hvr]

lemma unpackVals_isSome (big : Bool) (c : Char) (w : Nat)
    (hcw : charWidth c = some w) (n : Nat) (data : List Nat)
    (hlen : data.length = n * w) :
    (unpackVals big (List.replicate n c) data).isSome := by
  induction n generalizing data with
  | zero =>
    rcases data with _ | ⟨b, bs⟩
    · simp [unpackVals]
    · simp at hlen
  | succ n ih =>
    have hsm : (n + 1) * w = n * w + w := Nat.succ_mul n w
    simp only [List.replicate_succ, unpackVals, hcw]
    rw [if_neg (by omega)]
    have hrec' := ih (data.drop w) (by simp [hlen, hsm])
    rcases hrec : unpackVals big (List.replicate n c) (data.drop w) with _ | vs <;>
      rw [hrec] at hrec' <;> simp at hrec' ⊢

lemma parseLoop_exit (st : ParserState) (fuel : Nat) (buf : List Nat) (e : ℚ)
    (acc : List (List Int)) (h : buf.length < st.packetSize) :
    parseLoop st fuel buf e acc = some (acc, buf, e) := by
  rw [parseLoop.eq_def]
  rw [if_neg (by omega)]

lemma parseLoop_step_err (st : ParserState) (fuel : Nat) (buf : List Nat) (e : ℚ)
    (acc : List (List Int)) (h : st.packetSize ≤ buf.length)
    (hmm : startMatch st buf = false ∨ endMatch st buf = false) :
    parseLoop st (fuel + 1) buf e acc = parseLoop st fuel buf.tail (e + 1) acc := by
  rw [parseLoop.eq_def]
  rw [if_pos h]
  rcases hsm : startMatch st buf with _ | _
  · simp [hsm]
  · rcases hem : endMatch st buf with _ | _
    · simp [hsm, hem]
    · rcases hmm with hc | hc <;> simp [hc] at hsm hem ⊢

lemma parseLoop_step_ok (st : ParserState) (fuel : Nat) (buf : List Nat) (e : ℚ)
    (acc : List (List Int)) (vals : List Int) (h : st.packetSize ≤ buf.length)
    (hsm : startMatch st buf = true) (hem : endMatch st buf = true)
    (hunp : structUnpack st.parserString
      ((buf.drop st.headerSize).take st.payloadSize) = some vals) :
    parseLoop st (fuel + 1) buf e acc
      = parseLoop st fuel (buf.drop st.packetSize) e (acc ++ [vals]) := by
  rw [parseLoop.eq_def]
  rw [if_pos h]
  simp [hsm, hem, hunp]

lemma packed_payload_length (big : Bool) (w : Nat) (f : List Int) :
    ((f.map (packChunk big w)).flatten).length = f.length * w := by
  induction f with
  | nil => simp
  | cons v vs ih =>
    simp [ih, packChunk_length, Nat.succ_mul]
    ring

lemma encodeFrame_length (st : ParserState) (big : Bool) (w : Nat)
    (f : List Int)
    (hps : st.payloadSize = st.numChannels * w)
    (hh : st.headerSize = st.startSequence.length)
    (hpk : st.packetSize = st.headerSize + st.payloadSize + st.endSequence.length)
    (hlen : f.length = st.numChannels) :
    (encodeFrame st big w f).length = st.packetSize := by
  unfold encodeFrame
  rw [List.length_append, List.length_append, packed_payload_length, hlen, ← hps,
    ← hh, hpk]

/-- One successful iteration of the extraction loop on a buffer that starts
with the wire image of a well-formed frame: both markers match, the payload
unpacks to the original channel values, and the loop continues past the
frame. -/
lemma parseLoop_encode (st : ParserState) (big : Bool) (dc : Char) (w : Nat)
    (hfmt : st.parserString = (if big then '>' else '<') :: List.replicate st.numChannels dc)
    (hw : charWidth dc = some w)
    (hps : st.payloadSize = st.numChannels * w)
    (hh : st.headerSize = st.startSequence.length)
    (hpk : st.packetSize = st.headerSize + st.payloadSize + st.endSequence.length)
    (hpos : 1 ≤ st.packetSize)
    (frames : List (List Int))
    (hlen : ∀ f ∈ frames, f.length = st.numChannels)
    (hrange : ∀ f ∈ frames, ∀ v ∈ f, charInRange dc v)
    (e : ℚ) (acc : List (List Int)) (fuel : Nat) (hfuel : frames.length ≤ fuel) :
    parseLoop st fuel ((frames.map (encodeFrame st big w)).flatten) e acc
      = some (acc ++ frames, [], e) := by
  induction frames generalizing acc fuel with
  | nil =>
    simp only [List.map_nil, List.flatten_nil]
    rw [parseLoop_exit st fuel [] e acc (by simp; omega)]
    simp
  | cons f fs ih =>
    have hflen : f.length = st.numChannels := hlen f (List.mem_cons_self f fs)
    have hpay : ((f.map (packChunk big w)).flatten).length = st.payloadSize := by
      rw [packed_payload_length, hflen, hps]
    have henc : (encodeFrame st big w f).length = st.packetSize :=
      encodeFrame_length st big w f hps hh hpk hflen
    rcases fuel with _ | fuel
    · simp at hfuel
    simp only [List.map_cons, List.flatten_cons]
    have hbuflen : st.packetSize ≤
        ((encodeFrame st big w f ++ (fs.map (encodeFrame st big w)).flatten)).length := by
      simp [henc]
    have hsm : startMatch st
        (encodeFrame st big w f ++ (fs.map (encodeFrame st big w)).flatten) = true := by
      unfold startMatch encodeFrame
      simp only [List.append_assoc]
      rw [List.take_left]
      simp
    have hem : endMatch st
        (encodeFrame st big w f ++ (fs.map (encodeFrame st big w)).flatten) = true := by
      unfold endMatch encodeFrame
      simp only [List.append_assoc]
      rw [← List.append_assoc st.startSequence]
      rw [List.drop_left' (by simp [hpay, hh])]
      rw [List.take_left]
      simp
    have hspan : ((encodeFrame st big w f ++
        (fs.map (encodeFrame st big w)).flatten).drop st.headerSize).take st.payloadSize
        = (f.map (packChunk big w)).flatten := by
      unfold encodeFrame
      simp only [List.append_assoc]
      rw [List.drop_left' hh.symm]
      rw [List.take_left' hpay]
    have hunp : structUnpack st.parserString ((f.map (packChunk big w)).flatten)
        = some f := by
      rw [hfmt]
      rcases big with _ | _ <;>
        simp only [if_true, if_false, ite_true, ite_false, Bool.false_eq_true,
          structUnpack] <;>
        rw [← hflen] <;>
        exact unpackVals_pack _ dc w hw f (hrange f (List.mem_cons_self f fs))
    rw [parseLoop_step_ok st fuel _ e acc f hbuflen hsm hem (by rw [hspan]; exact hunp)]
    rw [List.drop_left' henc]
    rw [ih (fun g hg => hlen g (List.mem_cons_of_mem f hg))
        (fun g hg => hrange g (List.mem_cons_of_mem f hg))
        (acc ++ [f]) fuel (by simp at hfuel; omega)]
    simp

lemma pyIndex_resolve {α : Type} (l : List α) (i : Int) (x : α)
    (h : pyIndex l i = some x) :
    ∃ r : Nat, r < l.length ∧ l[r]? = some x ∧
      ∀ {β : Type} (lb : List β), lb.length = l.length → pyIndex lb i = lb[r]? := by
  unfold pyIndex at h
  split_ifs at h with h1 h2
  · have hlt : i.toNat < l.length := by
      rcases List.getElem?_eq_some.mp h with ⟨hl, _⟩
      exact hl
    exact ⟨i.toNat, hlt, h, fun lb hl => by unfold pyIndex; rw [if_pos h1]⟩
  · have hlt : l.length - (-i).toNat < l.length := by
      rcases List.getElem?_eq_some.mp h with ⟨hl, _⟩
      exact hl
    refine ⟨l.length - (-i).toNat, hlt, h, fun lb hl => ?_⟩
    unfold pyIndex
    rw [if_neg h1, if_pos (by omega), hl]

lemma size_char_width {dt : Int} {sz : Nat}
    (h : DataType.getSize dt = some sz) :
    ∃ dc, DataType.getParserChar dt = some dc ∧ charWidth dc = some sz := by
  obtain ⟨r, hr, hx, hgen⟩ := pyIndex_resolve _ dt sz h
  have hchar : DataType.getParserChar dt =
      (['b', 'B', 'h', 'H', 'l', 'L', 'q', 'Q', 'f', 'd'] : List Char)[r]? :=
    hgen _ rfl
  have hr10 : r < 10 := by simpa using hr
  clear hgen h hr
  interval_cases r <;>
    (rw [hchar]
     simp only [List.getElem?_cons_zero, List.getElem?_cons_succ,
       Option.some.injEq] at hx
     subst hx
     exact ⟨_, rfl, by decide⟩)

lemma setParserScheme_ok (st : ParserState) (startSeq : List Nat) (dt : Int)
    (nch : Nat) (endi : Int) (endSeq : List Nat) (st' : ParserState)
    (h : setParserScheme st startSeq dt nch endi endSeq = (false, st')) :
    ∃ ec dc w, Endianness.getParserChar endi = some ec ∧
      DataType.getParserChar dt = some dc ∧ charWidth dc = some w ∧
      st' = { st with
        dataType := dt, numChannels := nch, startSequence := startSeq,
        endSequence := endSeq, endianness := endi,
        payloadSize := nch * w, headerSize := startSeq.length,
        packetSize := startSeq.length + nch * w + endSeq.length,
        parserString := ec :: List.replicate nch dc } := by
  unfold setParserScheme at h
  rcases hsz : DataType.getSize dt with _ | sz
  · simp only [hsz] at h
    simp at h
  obtain ⟨dc, hdc, hcw⟩ := size_char_width hsz
  rcases hec : Endianness.getParserChar endi with _ | ec
  · simp only [hsz, hec] at h
    simp at h
  simp only [hsz, hec, hdc] at h
  by_cases hn : nch = 0
  · rw [if_pos hn] at h
    simp only [Prod.mk.injEq] at h
    refine ⟨ec, dc, sz, rfl, hdc, hcw, ?_⟩
    rw [← h.2]
    subst hn
    simp
  · rw [if_neg hn] at h
    simp only [Prod.mk.injEq] at h
    refine ⟨ec, dc, sz, rfl, hdc, hcw, ?_⟩
    rw [← h.2]

lemma endianness_char_cases {endi : Int} {ec : Char}
    (h : Endianness.getParserChar endi = some ec) : ec = '<' ∨ ec = '>' := by
  obtain ⟨r, hr, hx, _⟩ := pyIndex_resolve _ endi ec h
  have hr2 : r < 2 := by simpa using hr
  interval_cases r <;>
    simp only [List.getElem?_cons_zero, List.getElem?_cons_succ,
      Option.some.injEq] at hx
  · exact Or.inl hx.symm
  · exact Or.inr hx.symm

lemma structUnpack_length (fmt : List Char) (data : List Nat) (vals : List Int)
    (h : structUnpack fmt data = some vals) : vals.length + 1 = fmt.length := by
  unfold structUnpack at h
  split at h <;> first
    | simp at h
    | (rename_i rest; rw [unpackVals_length _ rest data vals h]; simp)

lemma structUnpack_isSome (ec dc : Char) (n w : Nat) (data : List Nat)
    (hec : ec = '<' ∨ ec = '>') (hw : charWidth dc = some w)
    (hlen : data.length = n * w) :
    (structUnpack (ec :: List.replicate n dc) data).isSome := by
  rcases hec with h | h <;> subst h <;>
    simpa [structUnpack] using unpackVals_isSome _ dc w hw n data hlen

/-- Exhausting the buffer: with a positive frame size and a payload format
that always unpacks, the loop reaches the exit condition within
`buf.length` iterations for every buffer. -/
lemma parseLoop_total (st : ParserState)
    (hpos : 1 ≤ st.packetSize)
    (hpk : st.headerSize + st.payloadSize ≤ st.packetSize)
    (hun : ∀ data : List Nat, data.length = st.payloadSize →
      (structUnpack st.parserString data).isSome) :
    ∀ fuel buf e acc, buf.length ≤ fuel → (parseLoop st fuel buf e acc).isSome := by
  intro fuel
  induction fuel with
  | zero =>
    intro buf e acc hle
    rw [parseLoop_exit st 0 buf e acc (by omega)]
    simp
  | succ fuel ih =>
    intro buf e acc hle
    by_cases hc : st.packetSize ≤ buf.length
    · rcases hsm : startMatch st buf with _ | _
      · rw [parseLoop_step_err st fuel buf e acc hc (Or.inl hsm)]
        exact ih _ _ _ (by simp [List.length_tail]; omega)
      · rcases hem : endMatch st buf with _ | _
        · rw [parseLoop_step_err st fuel buf e acc hc (Or.inr hem)]
          exact ih _ _ _ (by simp [List.length_tail]; omega)
        · have hchunk : ((buf.drop st.headerSize).take st.payloadSize).length
              = st.payloadSize := by
            simp [List.length_take, List.length_drop]
            omega
          have := hun _ hchunk
          rcases hu : structUnpack st.parserString
              ((buf.drop st.headerSize).take st.payloadSize) with _ | vals
          · rw [hu] at this; simp at this
          · rw [parseLoop_step_ok st fuel buf e acc vals hc hsm hem hu]
            exact ih _ _ _ (by simp [List.length_drop]; omega)
    · rw [parseLoop_exit st _ buf e acc (by omega)]
      simp

/-- Every frame the loop appends to the batch has exactly
`parserString.length - 1` values (one per format character). -/
lemma parseLoop_mem_length (st : ParserState) (n : Nat)
    (hfs : st.parserString.length = n + 1) :
    ∀ fuel buf e acc batch buf' e',
      parseLoop st fuel buf e acc = some (batch, buf', e') →
      (∀ f ∈ acc, f.length = n) → ∀ f ∈ batch, f.length = n := by
  intro fuel
  induction fuel with
  | zero =>
    intro buf e acc batch buf' e' hres hacc
    by_cases hc : st.packetSize ≤ buf.length
    · rw [parseLoop.eq_def, if_pos hc] at hres
      simp at hres
    · rw [parseLoop_exit st _ buf e acc (by omega)] at hres
      simp only [Option.some.injEq, Prod.mk.injEq] at hres
      rw [← hres.1]
      exact hacc
  | succ fuel ih =>
    intro buf e acc batch buf' e' hres hacc
    by_cases hc : st.packetSize ≤ buf.length
    · rcases hsm : startMatch st buf with _ | _
      · rw [parseLoop_step_err st fuel buf e acc hc (Or.inl hsm)] at hres
        exact ih _ _ _ _ _ _ hres hacc
      · rcases hem : endMatch st buf with _ | _
        · rw [parseLoop_step_err st fuel buf e acc hc (Or.inr hem)] at hres
          exact ih _ _ _ _ _ _ hres hacc
        · rcases hu : structUnpack st.parserString
              ((buf.drop st.headerSize).take st.payloadSize) with _ | vals
          · rw [parseLoop.eq_def, if_pos hc] at hres
            simp [hsm, hem, hu] at hres
          · rw [parseLoop_step_ok st fuel buf e acc vals hc hsm hem hu] at hres
            refine ih _ _ _ _ _ _ hres ?_
            intro f hf
            rcases List.mem_append.mp hf with hl | hr
            · exact hacc f hl
            · have hv : vals.length + 1 = st.parserString.length :=
                structUnpack_length _ _ _ hu
              simp at hr
              subst hr
              rw [hfs] at hv
              omega
    · rw [parseLoop_exit st _ buf e acc (by omega)] at hres
      simp only [Option.some.injEq, Prod.mk.injEq] at hres
      rw [← hres.1]
      exact hacc

lemma foldl_min_const (rows : List (List Int)) (n : Nat)
    (h : ∀ f ∈ rows, f.length = n) :
    rows.foldl (fun m row => min m row.length) n = n := by
  induction rows with
  | nil => rfl
  | cons r rs ih =>
    have hr : r.length = n := h r (List.mem_cons_self r rs)
    simp only [List.foldl_cons, hr, min_self]
    exact ih fun f hf => h f (List.mem_cons_of_mem r hf)

lemma zipStar_uniform (pp : List (List Int)) (n : Nat) (hne : pp ≠ [])
    (hlen : ∀ f ∈ pp, f.length = n) :
    zipStar pp = (List.range n).map (fun c => pp.map (fun row => row.getD c 0)) := by
  rcases pp with _ | ⟨r, rest⟩
  · contradiction
  have hr : r.length = n := hlen r (List.mem_cons_self r rest)
  simp only [zipStar]
  rw [hr, foldl_min_const rest n fun f hf => hlen f (List.mem_cons_of_mem r hf)]

lemma updateRates_fields (st : ParserState) (n : Nat) (t : ℚ) :
    (updateRates st n t).buffer = st.buffer ∧
    (updateRates st n t).dataType = st.dataType ∧
    (updateRates st n t).numChannels = st.numChannels ∧
    (updateRates st n t).startSequence = st.startSequence ∧
    (updateRates st n t).endSequence = st.endSequence ∧
    (updateRates st n t).endianness = st.endianness ∧
    (updateRates st n t).payloadSize = st.payloadSize ∧
    (updateRates st n t).headerSize = st.headerSize ∧
    (updateRates st n t).packetSize = st.packetSize ∧
    (updateRates st n t).parserString = st.parserString := by
  simp only [updateRates]
  split_ifs <;> simp

lemma parse_eq (st : ParserState) (data : List Nat) (t : ℚ)
    (batch : List (List Int)) (buf' : List Nat) (e' : ℚ)
    (h : parseLoop st (st.buffer ++ data).length (st.buffer ++ data)
      st.parserErrCount [] = some (batch, buf', e')) :
    parse st data t = some (zipStar batch,
      updateRates { st with buffer := buf', parserErrCount := e' } batch.length t) := by
  simp only [parse, h]

lemma flatten_length_const {α : Type} (l : List (List α)) (n : Nat)
    (h : ∀ x ∈ l, x.length = n) : l.flatten.length = l.length * n := by
  induction l with
  | nil => simp
  | cons x xs ih =>
    simp only [List.flatten_cons, List.length_append, List.length_cons,
      h x (List.mem_cons_self x xs),
      ih fun y hy => h y (List.mem_cons_of_mem x hy), Nat.succ_mul]
    omega

lemma pyIndex_in_range {α : Type} (l : List α) (i : Int)
    (h1 : -(l.length : Int) ≤ i) (h2 : i < l.length) :
    ∃ x, pyIndex l i = some x := by
  unfold pyIndex
  by_cases h0 : 0 ≤ i
  · rw [if_pos h0]
    have : i.toNat < l.length := by omega
    exact ⟨l[i.toNat], List.getElem?_eq_getElem this⟩
  · rw [if_neg h0, if_pos (by omega)]
    have : l.length - (-i).toNat < l.length := by omega
    exact ⟨l[l.length - (-i).toNat], List.getElem?_eq_getElem this⟩

lemma getSize_invalid {dt : Int} (h : dt ≤ -11 ∨ 10 ≤ dt) :
    DataType.getSize dt = none := by
  unfold DataType.getSize pyIndex
  rcases h with h | h
  · rw [if_neg (by omega), if_neg (by simp; omega)]
  · rw [if_pos (by omega)]
    exact List.getElem?_eq_none (by simp; omega)

/-- C3: whenever the buffer holds at least `packetSize` (= frameSize) bytes
and the start-marker or the end-marker comparison fails at the current head,
one loop iteration removes exactly the first byte of the buffer (never the
whole candidate frame), adds exactly one to the error counter, and
re-attempts matching; and a scheme whose end marker is empty never rejects
any buffer position at the end-marker check. -/
theorem c3_byte_resynchronization (st : ParserState) (fuel : Nat)
    (buf : List Nat) (e : ℚ) (acc : List (List Int))
    (h : st.packetSize ≤ buf.length)
    (hmm : startMatch st buf = false ∨ endMatch st buf = false) :
    parseLoop st (fuel + 1) buf e acc = parseLoop st fuel buf.tail (e + 1) acc ∧
    ∀ st2 : ParserState, st2.endSequence = [] → ∀ b, endMatch st2 b = true := by
  refine ⟨parseLoop_step_err st fuel buf e acc h hmm, ?_⟩
  intro st2 h2 b
  simp [endMatch, h2]

theorem c3_witness :
    refParser.packetSize ≤ (List.replicate 14 (0 : Nat)).length ∧
    startMatch refParser (List.replicate 14 (0 : Nat)) = false ∧
    (parseLoop refParser 1 (List.replicate 14 (0 : Nat)) 0 []
        = parseLoop refParser 0 (List.replicate 14 (0 : Nat)).tail (0 + 1) [] ∧
      ∀ st2 : ParserState, st2.endSequence = [] → ∀ b, endMatch st2 b = true) :=
  ⟨by decide, by decide,
    c3_byte_resynchronization refParser 0 (List.replicate 14 0) 0 [] (by decide)
      (Or.inl (by decide))⟩

/-- C6: for every consistently configured scheme with `frameSize ≥ 1`,
`parse` returns on every buffer content and input chunk — the loop exits
within buffer-length iterations, so the call never waits for more input
(a `some` result is exactly a loop run that reached the exit condition). -/
theorem c6_parse_terminates (st : ParserState) (hv : ValidScheme st)
    (hpos : 1 ≤ st.packetSize) (data : List Nat) (t : ℚ) :
    (parse st data t).isSome := by
  obtain ⟨ec, dc, w, hec, hdc, hcw, hfmt, hps, hh, hpk⟩ := hv
  have hun : ∀ d : List Nat, d.length = st.payloadSize →
      (structUnpack st.parserString d).isSome := by
    intro d hd
    rw [hfmt]
    exact structUnpack_isSome ec dc st.numChannels w d
      (endianness_char_cases hec) hcw (by rw [hd, hps])
  have htot := parseLoop_total st hpos (by omega) hun
    (st.buffer ++ data).length (st.buffer ++ data) st.parserErrCount [] le_rfl
  rcases hres : parseLoop st (st.buffer ++ data).length (st.buffer ++ data)
      st.parserErrCount [] with _ | ⟨batch, buf', e'⟩
  · rw [hres] at htot
    simp at htot
  · rw [parse_eq st data t batch buf' e' hres]
    simp

theorem c6_witness :
    ValidScheme refParser ∧ 1 ≤ refParser.packetSize ∧
    (parse refParser [1, 2, 3] 0).isSome :=
  ⟨⟨'<', 'l', 4, by decide, by decide, by decide, by decide, by decide,
      by decide, by decide⟩,
    by decide,
    c6_parse_terminates refParser
      ⟨'<', 'l', 4, by decide, by decide, by decide, by decide, by decide,
        by decide, by decide⟩
      (by decide) [1, 2, 3] 0⟩

/-- C8: the rate-tracker advance at the end of `parse`.  With the window
start still at its unset sentinel (0), only the window start is recorded and
neither smoothed rate changes; with a prior window start and more than one
second elapsed, both rates are folded by the 3/10 / 7/10 smoothing of the
accumulated counters over the elapsed time and the counters and window are
reset; with at most one second elapsed, the rates and the window start are
left unchanged. -/
theorem c8_rate_tracker (st : ParserState) (n : Nat) (t : ℚ) :
    (st.startTime = 0 →
      (updateRates st n t).packetRate = st.packetRate ∧
      (updateRates st n t).parserErrRate = st.parserErrRate ∧
      (updateRates st n t).startTime = t) ∧
    (st.startTime ≠ 0 → 1 < t - st.startTime →
      (updateRates st n t).packetRate
          = st.packetRate * (3 / 10) + ((st.packetCount + n) / (t - st.startTime)) * (7 / 10) ∧
      (updateRates st n t).parserErrRate
          = st.parserErrRate * (3 / 10) + (st.parserErrCount / (t - st.startTime)) * (7 / 10) ∧
      (updateRates st n t).packetCount = 0 ∧
      (updateRates st n t).parserErrCount = 0 ∧
      (updateRates st n t).startTime = t) ∧
    (st.startTime ≠ 0 → t - st.startTime ≤ 1 →
      (updateRates st n t).packetRate = st.packetRate ∧
      (updateRates st n t).parserErrRate = st.parserErrRate ∧
      (updateRates st n t).startTime = st.startTime) := by
  refine ⟨?_, ?_, ?_⟩
  · intro h1
    simp [updateRates, h1]
  · intro h1 h2
    simp [updateRates, h1, h2]
  · intro h1 h2
    simp [updateRates, h1, not_lt.mpr h2]

theorem c8_witness :
    refTracker.startTime ≠ 0 ∧ (1 : ℚ) < 3 - refTracker.startTime ∧
    ((updateRates refTracker 20 3).packetRate
        = refTracker.packetRate * (3 / 10)
          + ((refTracker.packetCount + (20 : Nat)) / (3 - refTracker.startTime)) * (7 / 10) ∧
      (updateRates refTracker 20 3).parserErrRate
        = refTracker.parserErrRate * (3 / 10)
          + (refTracker.parserErrCount / (3 - refTracker.startTime)) * (7 / 10) ∧
      (updateRates refTracker 20 3).packetCount = 0 ∧
      (updateRates refTracker 20 3).parserErrCount = 0 ∧
      (updateRates refTracker 20 3).startTime = 3) :=
  ⟨by norm_num [refTracker], by norm_num [refTracker],
    (c8_rate_tracker refTracker 20 3).2.1 (by norm_num [refTracker])
      (by norm_num [refTracker])⟩

/-- C9 counterexample: with a smoothed error byte-rate of 7 and the
reference frame size 14, `getErrorRate` returns 0, while the error
byte-rate divided by the frame size is 1/2 — the claimed exact
normalization does not hold. -/
theorem c9_counterexample :
    getErrorRate { refParser with parserErrRate := 7 } = some 0 ∧
    ({ refParser with parserErrRate := 7 } : ParserState).parserErrRate
        / (({ refParser with parserErrRate := 7 } : ParserState).packetSize : ℚ)
        = 1 / 2 ∧
    (0 : ℚ) ≠ 1 / 2 := by
  have hps : ({ refParser with parserErrRate := 7 } : ParserState).packetSize = 14 := by
    decide
  have herr : ({ refParser with parserErrRate := 7 } : ParserState).parserErrRate = 7 := by
    decide
  refine ⟨?_, ?_, by norm_num⟩
  · unfold getErrorRate
    rw [hps, herr, if_neg (by norm_num)]
    have hfl : ⌊(7 : ℚ) / (14 : Nat)⌋ = 0 := by
      rw [Int.floor_eq_zero_iff]
      constructor <;> norm_num
    rw [hfl]
    norm_num
  · rw [hps, herr]
    norm_num

/-- C9 amended: `getErrorRate` returns the integer floor of the smoothed
error byte-rate divided by the frame size (Python floor division `//`), not
the exact quotient: the result is an integer bracketing the true quotient
from below within distance one. -/
theorem c9_error_rate_floor (st : ParserState) (h : st.packetSize ≠ 0) :
    ∃ q : ℚ, getErrorRate st = some q ∧ q.den = 1 ∧
      q ≤ st.parserErrRate / (st.packetSize : ℚ) ∧
      st.parserErrRate / (st.packetSize : ℚ) < q + 1 := by
  refine ⟨((⌊st.parserErrRate / (st.packetSize : ℚ)⌋ : Int) : ℚ), ?_, ?_, ?_, ?_⟩
  · simp [getErrorRate, h]
  · exact Rat.den_intCast _
  · exact Int.floor_le _
  · exact Int.lt_floor_add_one _

theorem c9_witness :
    ({ refParser with parserErrRate := 7 } : ParserState).packetSize ≠ 0 ∧
    ∃ q : ℚ, getErrorRate { refParser with parserErrRate := 7 } = some q ∧
      q.den = 1 ∧
      q ≤ ({ refParser with parserErrRate := 7 } : ParserState).parserErrRate
        / (({ refParser with parserErrRate := 7 } : ParserState).packetSize : ℚ) ∧
      ({ refParser with parserErrRate := 7 } : ParserState).parserErrRate
        / (({ refParser with parserErrRate := 7 } : ParserState).packetSize : ℚ) < q + 1 :=
  ⟨by decide, c9_error_rate_floor { refParser with parserErrRate := 7 } (by decide)⟩

/-- C10: a `parse` call whose decoded batch carries no values — zero frames
decoded, or a zero channel count — returns the empty list of sequences, not
`channelCount` empty sequences. -/
theorem c10_empty_batch (st : ParserState) (data : List Nat) (t : ℚ)
    (batch : List (List Int)) (buf' : List Nat) (e' : ℚ)
    (hrun : parseLoop st (st.buffer ++ data).length (st.buffer ++ data)
      st.parserErrCount [] = some (batch, buf', e'))
    (hfs : st.parserString.length = st.numChannels + 1)
    (hz : batch = [] ∨ st.numChannels = 0) :
    ∃ st', parse st data t = some ([], st') := by
  have hall : ∀ f ∈ batch, f.length = st.numChannels :=
    parseLoop_mem_length st st.numChannels hfs _ _ _ _ _ _ _ hrun (by simp)
  have hzs : zipStar batch = [] := by
    rcases hz with hz | hz
    · subst hz
      rfl
    · rcases hbatch : batch with _ | ⟨r, rest⟩
      · rfl
      · rw [← hbatch, zipStar_uniform batch st.numChannels (by rw [hbatch]; simp) hall,
          hz]
        simp
  exact ⟨_, by rw [parse_eq st data t batch buf' e' hrun, hzs]⟩

theorem c10_witness :
    parseLoop refParser (refParser.buffer ++ []).length (refParser.buffer ++ [])
        refParser.parserErrCount [] = some ([], [], refParser.parserErrCount) ∧
    refParser.parserString.length = refParser.numChannels + 1 ∧
    ∃ st', parse refParser [] 0 = some ([], st') :=
  ⟨by decide, by decide,
    c10_empty_batch refParser [] 0 [] [] refParser.parserErrCount (by decide)
      (by decide) (Or.inl rfl)⟩

/-- C2 counterexample: a `parse` call that decodes zero frames (empty input,
empty buffer) returns the empty list — zero sequences — although the scheme
has three channels, so the returned value does not consist of
`channelCount` sequences on every call. -/
theorem c2_counterexample :
    refParser.numChannels = 3 ∧
    (parse refParser [] 0).map Prod.fst = some [] ∧
    ([] : List (List Int)).length ≠ refParser.numChannels := by decide

/-- C2 amended: on every `parse` call whose decoded batch is nonempty, the
returned value is the channel-major transpose of the batch — exactly
`channelCount` sequences, sequence `c` collecting entry `c` of every frame
in arrival order; a call with an empty batch returns the empty list
instead. -/
theorem c2_channel_transpose (st : ParserState) (data : List Nat) (t : ℚ)
    (batch : List (List Int)) (buf' : List Nat) (e' : ℚ)
    (hrun : parseLoop st (st.buffer ++ data).length (st.buffer ++ data)
      st.parserErrCount [] = some (batch, buf', e'))
    (hfs : st.parserString.length = st.numChannels + 1) :
    (batch ≠ [] → ∃ st', parse st data t
        = some ((List.range st.numChannels).map
            (fun c => batch.map (fun row => row.getD c 0)), st')) ∧
    (batch = [] → ∃ st', parse st data t = some ([], st')) := by
  have hall : ∀ f ∈ batch, f.length = st.numChannels :=
    parseLoop_mem_length st st.numChannels hfs _ _ _ _ _ _ _ hrun (by simp)
  constructor
  · intro hne
    exact ⟨_, by
      rw [parse_eq st data t batch buf' e' hrun,
        zipStar_uniform batch st.numChannels hne hall]⟩
  · intro hz
    subst hz
    exact ⟨_, by rw [parse_eq st data t [] buf' e' hrun]; rfl⟩

theorem c2_witness :
    parseLoop refParser (refParser.buffer ++ c2Data).length
        (refParser.buffer ++ c2Data) refParser.parserErrCount []
      = some ([[-1, 1, 100], [2, -2, 200]], [], refParser.parserErrCount) ∧
    refParser.parserString.length = refParser.numChannels + 1 ∧
    ([[-1, 1, 100], [2, -2, 200]] : List (List Int)) ≠ [] ∧
    ∃ st', parse refParser c2Data 0
      = some ((List.range refParser.numChannels).map
          (fun c => ([[-1, 1, 100], [2, -2, 200]] : List (List Int)).map
            (fun row => row.getD c 0)), st') :=
  ⟨by decide, by decide, by decide,
    (c2_channel_transpose refParser c2Data 0 [[-1, 1, 100], [2, -2, 200]] []
        refParser.parserErrCount (by decide) (by decide)).1 (by decide)⟩

/-- C7 counterexample: reconfiguring the reference parser with empty
markers, the INT8 tag and zero channels yields a derived frame size of 0 —
non-positive — yet no exception is raised (the `Bool` component, the
raised-exception flag, is `false`), refuting the claim that a non-positive
frame size raises a `ConfigError`. -/
theorem c7_counterexample :
    (setParserScheme refParser [] 0 0 0 []).1 = false ∧
    (setParserScheme refParser [] 0 0 0 []).2.packetSize = 0 := by decide

/-- C7 amended: only a data-type tag outside Python's list-index range
(`tag ≤ -11` or `tag ≥ 10`) raises, and the raise happens after the raw
scheme fields have been overwritten, so the previous scheme's derived
fields survive while its raw fields do not; a tag in `[-10, -1]` is
accepted silently through negative indexing (given an in-range endianness),
and a non-positive derived frame size raises nothing. -/
theorem c7_config_errors :
    (∀ (st : ParserState) (startSeq : List Nat) (dt : Int) (nch : Nat)
        (endi : Int) (endSeq : List Nat), dt ≤ -11 ∨ 10 ≤ dt →
      setParserScheme st startSeq dt nch endi endSeq
        = (true, { st with
            dataType := dt
            numChannels := nch
            startSequence := startSeq
            endSequence := endSeq
            endianness := endi })) ∧
    (∀ (st : ParserState) (startSeq : List Nat) (dt : Int) (nch : Nat)
        (endi : Int) (endSeq : List Nat),
      -10 ≤ dt → dt ≤ -1 → -2 ≤ endi → endi ≤ 1 →
      (setParserScheme st startSeq dt nch endi endSeq).1 = false) ∧
    (setParserScheme refParser [] 0 0 0 []).1 = false ∧
    (setParserScheme refParser [] 0 0 0 []).2.packetSize = 0 := by
  refine ⟨?_, ?_, by decide, by decide⟩
  · intro st startSeq dt nch endi endSeq hdt
    unfold setParserScheme
    simp only [getSize_invalid hdt]
  · intro st startSeq dt nch endi endSeq h1 h2 h3 h4
    obtain ⟨sz, hsz⟩ := pyIndex_in_range [1, 1, 2, 2, 4, 4, 8, 8, 4, 8] dt
      (by simp; omega) (by simp; omega)
    have hsz' : DataType.getSize dt = some sz := hsz
    obtain ⟨dcx, hdcx, -⟩ := size_char_width hsz'
    obtain ⟨ec, hec⟩ := pyIndex_in_range ['<', '>'] endi
      (by simp; omega) (by simp; omega)
    have hec' : Endianness.getParserChar endi = some ec := hec
    unfold setParserScheme
    simp only [hsz', hec', hdcx]
    split_ifs <;> rfl

theorem c7_witness :
    ((10 : Int) ≤ -11 ∨ 10 ≤ (10 : Int)) ∧
    setParserScheme refParser [1] 10 2 0 []
      = (true, { refParser with
          dataType := 10
          numChannels := 2
          startSequence := [1]
          endSequence := []
          endianness := 0 }) :=
  ⟨Or.inr (by decide),
    c7_config_errors.1 refParser [1] 10 2 0 [] (Or.inr (by decide))⟩

/-- C1: for every frame scheme the constructor accepts (valid tag and
endianness, `frameSize ≥ 1`) and every list of well-formed frames (each
with `channelCount` values in the tag's representable range), feeding the
back-to-back concatenation of the frames' wire encodings to a single
`parse` call on the fresh parser decodes exactly those frames with their
original channel values, leaves the buffer empty, and leaves the error
counter unincremented. -/
theorem c1_exact_round_trip
    (startSeq : List Nat) (dt : Int) (nch : Nat) (endi : Int) (endSeq : List Nat)
    (st : ParserState)
    (hmk : mkParser startSeq dt nch endi endSeq = (false, st))
    (hpos : 1 ≤ st.packetSize)
    (big : Bool) (dc : Char) (w : Nat)
    (hec : Endianness.getParserChar endi = some (if big then '>' else '<'))
    (hdc : DataType.getParserChar dt = some dc)
    (hcw : charWidth dc = some w)
    (frames : List (List Int))
    (hlen : ∀ f ∈ frames, f.length = nch)
    (hrange : ∀ f ∈ frames, ∀ v ∈ f, charInRange dc v)
    (t : ℚ) :
    parseLoop st ((frames.map (encodeFrame st big w)).flatten).length
        ((frames.map (encodeFrame st big w)).flatten) st.parserErrCount []
      = some (frames, [], st.parserErrCount) ∧
    ∃ st', parse st ((frames.map (encodeFrame st big w)).flatten) t
        = some (zipStar frames, st')
      ∧ st'.parserErrCount = st.parserErrCount ∧ st'.buffer = [] := by
  rw [mkParser] at hmk
  obtain ⟨ec, dc2, w2, hec2, hdc2, hcw2, hrec⟩ :=
    setParserScheme_ok _ startSeq dt nch endi endSeq st hmk
  rw [hec2] at hec
  rw [hdc2] at hdc
  injection hec with hec
  injection hdc with hdc
  subst hec
  subst hdc
  rw [hcw2] at hcw
  injection hcw with hcw
  subst hcw
  have hfmt : st.parserString
      = (if big then '>' else '<') :: List.replicate st.numChannels dc2 := by
    rw [hrec]
  have hnch : st.numChannels = nch := by rw [hrec]
  have hps : st.payloadSize = st.numChannels * w2 := by rw [hrec]
  have hh : st.headerSize = st.startSequence.length := by rw [hrec]
  have hpk : st.packetSize
      = st.headerSize + st.payloadSize + st.endSequence.length := by rw [hrec]
  have hbuf : st.buffer = [] := by rw [hrec]
  have hst0 : st.startTime = 0 := by rw [hrec]
  have hlen' : ∀ f ∈ frames, f.length = st.numChannels := by
    rw [hnch]
    exact hlen
  have hencl : ∀ b ∈ frames.map (encodeFrame st big w2),
      b.length = st.packetSize := by
    intro b hb
    obtain ⟨f, hf, rfl⟩ := List.mem_map.mp hb
    exact encodeFrame_length st big w2 f hps hh hpk (hlen' f hf)
  have hfuel : frames.length
      ≤ ((frames.map (encodeFrame st big w2)).flatten).length := by
    rw [flatten_length_const _ _ hencl, List.length_map]
    exact Nat.le_mul_of_pos_right _ hpos
  have hloop := parseLoop_encode st big dc2 w2 hfmt hcw2 hps hh hpk hpos frames
    hlen' hrange st.parserErrCount
    [] ((frames.map (encodeFrame st big w2)).flatten).length hfuel
  rw [List.nil_append] at hloop
  refine ⟨hloop, ?_⟩
  have hrun : parseLoop st
      (st.buffer ++ (frames.map (encodeFrame st big w2)).flatten).length
      (st.buffer ++ (frames.map (encodeFrame st big w2)).flatten)
      st.parserErrCount []
      = some (frames, [], st.parserErrCount) := by
    rw [hbuf, List.nil_append]
    exact hloop
  refine ⟨_, parse_eq st _ t frames [] st.parserErrCount hrun, ?_, ?_⟩ <;>
    simp [updateRates, hst0]

theorem c1_witness :
    mkParser [170, 187] 4 3 0 [] = (false, refParser) ∧
    1 ≤ refParser.packetSize ∧
    (parseLoop refParser
        ((([[-1, 1, 100], [2, -2, 200]] : List (List Int)).map
          (encodeFrame refParser false 4)).flatten).length
        ((([[-1, 1, 100], [2, -2, 200]] : List (List Int)).map
          (encodeFrame refParser false 4)).flatten) refParser.parserErrCount []
      = some ([[-1, 1, 100], [2, -2, 200]], [], refParser.parserErrCount) ∧
    ∃ st', parse refParser
        ((([[-1, 1, 100], [2, -2, 200]] : List (List Int)).map
          (encodeFrame refParser false 4)).flatten) 0
        = some (zipStar [[-1, 1, 100], [2, -2, 200]], st')
      ∧ st'.parserErrCount = refParser.parserErrCount ∧ st'.buffer = []) :=
  ⟨by decide, by decide,
    c1_exact_round_trip [170, 187] 4 3 0 [] refParser (by decide) (by decide)
      false 'l' 4 (by decide) (by decide) (by decide)
      [[-1, 1, 100], [2, -2, 200]] (by decide) (by decide) 0⟩

/-- Dropping one leading byte per iteration: a garbage prefix in which the
start marker never aligns costs exactly one error and one byte per garbage
position, after which the trailing frame decodes normally. -/
lemma parseLoop_garbage (st : ParserState) (big : Bool) (dc : Char) (w : Nat)
    (hfmt : st.parserString
      = (if big then '>' else '<') :: List.replicate st.numChannels dc)
    (hw : charWidth dc = some w)
    (hps : st.payloadSize = st.numChannels * w)
    (hh : st.headerSize = st.startSequence.length)
    (hpk : st.packetSize = st.headerSize + st.payloadSize + st.endSequence.length)
    (hpos : 1 ≤ st.packetSize)
    (f : List Int) (hflen : f.length = st.numChannels)
    (hfr : ∀ v ∈ f, charInRange dc v)
    (garbage : List Nat)
    (hg : ∀ i < garbage.length,
      startMatch st ((garbage ++ encodeFrame st big w f).drop i) = false)
    (e : ℚ) (fuel : Nat) (hfuel : garbage.length + 1 ≤ fuel) :
    parseLoop st fuel (garbage ++ encodeFrame st big w f) e []
      = some ([f], [], e + garbage.length) := by
  induction garbage generalizing e fuel with
  | nil =>
    have hloop := parseLoop_encode st big dc w hfmt hw hps hh hpk hpos [f]
      (by simpa using hflen) (by simpa using hfr) e [] fuel
      (by simp at hfuel ⊢; omega)
    simpa using hloop
  | cons g gs ih =>
    rcases fuel with _ | fuel
    · exact absurd hfuel (by omega)
    have henc : (encodeFrame st big w f).length = st.packetSize :=
      encodeFrame_length st big w f hps hh hpk hflen
    have hg' : ∀ i < gs.length,
        startMatch st ((gs ++ encodeFrame st big w f).drop i) = false := by
      intro i hi
      have := hg (i + 1) (by simp; omega)
      simpa using this
    have hstep := parseLoop_step_err st fuel ((g :: gs) ++ encodeFrame st big w f)
      e [] (by simp [henc]; omega) (Or.inl (by simpa using hg 0 (by simp)))
    rw [hstep]
    rw [show ((g :: gs) ++ encodeFrame st big w f).tail
      = gs ++ encodeFrame st big w f from by simp]
    rw [ih hg' (e + 1) fuel (by simp at hfuel ⊢; omega)]
    simp only [Option.some.injEq, Prod.mk.injEq, List.length_cons, true_and]
    push_cast
    ring

theorem c4_garbage_resync (st : ParserState) (big : Bool) (dc : Char) (w : Nat)
    (hfmt : st.parserString
      = (if big then '>' else '<') :: List.replicate st.numChannels dc)
    (hw : charWidth dc = some w)
    (hps : st.payloadSize = st.numChannels * w)
    (hh : st.headerSize = st.startSequence.length)
    (hpk : st.packetSize = st.headerSize + st.payloadSize + st.endSequence.length)
    (hpos : 1 ≤ st.packetSize)
    (f : List Int) (hflen : f.length = st.numChannels)
    (hfr : ∀ v ∈ f, charInRange dc v)
    (garbage : List Nat)
    (hg : ∀ i < garbage.length,
      startMatch st ((garbage ++ encodeFrame st big w f).drop i) = false)
    (e : ℚ) :
    parseLoop st (garbage ++ encodeFrame st big w f).length
        (garbage ++ encodeFrame st big w f) e []
      = some ([f], [], e + garbage.length) :=
  parseLoop_garbage st big dc w hfmt hw hps hh hpk hpos f hflen hfr garbage hg e _
    (by
      have henc : (encodeFrame st big w f).length = st.packetSize :=
        encodeFrame_length st big w f hps hh hpk hflen
      simp [henc]
      omega)

theorem c4_witness :
    (∀ i < (List.length [(0 : Nat)]),
      startMatch refParser
        (([0] ++ encodeFrame refParser false 4 [-1, 1, 100]).drop i) = false) ∧
    parseLoop refParser ([0] ++ encodeFrame refParser false 4 [-1, 1, 100]).length
        ([0] ++ encodeFrame refParser false 4 [-1, 1, 100]) 0 []
      = some ([[-1, 1, 100]], [], 0 + (List.length [(0 : Nat)] : ℚ)) :=
  ⟨by decide,
    c4_garbage_resync refParser false 'l' 4 (by decide) (by decide) (by decide)
      (by decide) (by decide) (by decide) [-1, 1, 100] (by decide) (by decide)
      [0] (by decide) 0⟩

/-- C5: feeding the first `frameSize - 1` bytes of a valid frame to a parser
with an empty buffer returns an empty batch and keeps those bytes verbatim
in the buffer; a second call feeding the remaining final byte completes
exactly that one frame and empties the buffer — no byte is lost or
truncated between the calls. -/
theorem c5_split_frame_retention (st : ParserState) (big : Bool) (dc : Char)
    (w : Nat)
    (hfmt : st.parserString
      = (if big then '>' else '<') :: List.replicate st.numChannels dc)
    (hw : charWidth dc = some w)
    (hps : st.payloadSize = st.numChannels * w)
    (hh : st.headerSize = st.startSequence.length)
    (hpk : st.packetSize = st.headerSize + st.payloadSize + st.endSequence.length)
    (hpos : 1 ≤ st.packetSize)
    (hbuf : st.buffer = [])
    (f : List Int) (hflen : f.length = st.numChannels)
    (hfr : ∀ v ∈ f, charInRange dc v) (t t' : ℚ) :
    ∃ st1, parse st ((encodeFrame st big w f).take (st.packetSize - 1)) t
        = some ([], st1)
      ∧ st1.buffer = (encodeFrame st big w f).take (st.packetSize - 1)
      ∧ ∃ st2, parse st1 ((encodeFrame st big w f).drop (st.packetSize - 1)) t'
          = some (zipStar [f], st2) ∧ st2.buffer = [] := by
  have henc : (encodeFrame st big w f).length = st.packetSize :=
    encodeFrame_length st big w f hps hh hpk hflen
  have h1len : (st.buffer
      ++ (encodeFrame st big w f).take (st.packetSize - 1)).length
      < st.packetSize := by
    simp [hbuf, List.length_take, henc]
    omega
  have hrun1 := parseLoop_exit st
    (st.buffer ++ (encodeFrame st big w f).take (st.packetSize - 1)).length
    (st.buffer ++ (encodeFrame st big w f).take (st.packetSize - 1))
    st.parserErrCount [] h1len
  have hparse1 := parse_eq st
    ((encodeFrame st big w f).take (st.packetSize - 1)) t []
    (st.buffer ++ (encodeFrame st big w f).take (st.packetSize - 1))
    st.parserErrCount hrun1
  obtain ⟨hfb, -, hfnc, hfss, hfes, -, hfps, hfhs, hfpk, hfstr⟩ :=
    updateRates_fields
      { st with
        buffer := st.buffer
          ++ (encodeFrame st big w f).take (st.packetSize - 1)
        parserErrCount := st.parserErrCount }
      (List.length ([] : List (List Int))) t
  refine ⟨_, hparse1, ?_, ?_⟩
  · rw [hfb, hbuf, List.nil_append]
  set st1 := updateRates
      { st with
        buffer := st.buffer
          ++ (encodeFrame st big w f).take (st.packetSize - 1)
        parserErrCount := st.parserErrCount }
      (List.length ([] : List (List Int))) t with hst1
  have hb1 : st1.buffer = (encodeFrame st big w f).take (st.packetSize - 1) := by
    rw [hfb, hbuf, List.nil_append]
  have henc1 : encodeFrame st1 big w f = encodeFrame st big w f := by
    unfold encodeFrame
    rw [hfss, hfes]
  have hfmt1 : st1.parserString
      = (if big then '>' else '<') :: List.replicate st1.numChannels dc := by
    rw [hfstr, hfnc]
    exact hfmt
  have hps1 : st1.payloadSize = st1.numChannels * w := by
    rw [hfps, hfnc]
    exact hps
  have hh1 : st1.headerSize = st1.startSequence.length := by
    rw [hfhs, hfss]
    exact hh
  have hpk1 : st1.packetSize
      = st1.headerSize + st1.payloadSize + st1.endSequence.length := by
    rw [hfpk, hfhs, hfps, hfes]
    exact hpk
  have hpos1 : 1 ≤ st1.packetSize := by
    rw [hfpk]
    exact hpos
  have hcat : st1.buffer ++ (encodeFrame st big w f).drop (st.packetSize - 1)
      = encodeFrame st big w f := by
    rw [hb1]
    exact List.take_append_drop _ _
  have hloop2 := parseLoop_encode st1 big dc w hfmt1 hw hps1 hh1 hpk1 hpos1 [f]
    (by simpa [hfnc] using hflen) (by simpa using hfr) st1.parserErrCount []
    (st1.buffer ++ (encodeFrame st big w f).drop (st.packetSize - 1)).length
    (by rw [hcat, henc]; simpa using hpos)
  have h2 : (([f].map (encodeFrame st1 big w)).flatten)
      = st1.buffer ++ (encodeFrame st big w f).drop (st.packetSize - 1) := by
    simp [henc1, hcat]
  rw [h2] at hloop2
  rw [List.nil_append] at hloop2
  have hparse2 := parse_eq st1
    ((encodeFrame st big w f).drop (st.packetSize - 1)) t' [f] []
    st1.parserErrCount hloop2
  refine ⟨_, hparse2, ?_⟩
  exact (updateRates_fields _ _ _).1

theorem c5_witness :
    refParser.buffer = [] ∧
    ∃ st1, parse refParser
        ((encodeFrame refParser false 4 [-1, 1, 100]).take
          (refParser.packetSize - 1)) 0
        = some ([], st1)
      ∧ st1.buffer = (encodeFrame refParser false 4 [-1, 1, 100]).take
          (refParser.packetSize - 1)
      ∧ ∃ st2, parse st1
          ((encodeFrame refParser false 4 [-1, 1, 100]).drop
            (refParser.packetSize - 1)) 0
          = some (zipStar [[-1, 1, 100]], st2) ∧ st2.buffer = [] :=
  ⟨by decide,
    c5_split_frame_retention refParser false 'l' 4 (by decide) (by decide)
      (by decide) (by decide) (by decide) (by decide) (by decide)
      [-1, 1, 100] (by decide) (by decide) 0 0⟩

end SerialStudio
